import Mathlib

/-!
Verification of the FileScope file analyzer (main.go).

The program walks a directory tree, collects per-file metadata
(path, size, extension, last-used timestamp), filters by a minimum
size, aggregates per-extension counts and sizes and per-directory
sizes, sorts the collected records by size and by last-used time,
and renders a plain-text report.

Shallow embedding notes:
- Timestamps are modelled as Int nanoseconds on a single timeline;
  the Go zero time.Time is modelled as 0 (every realistic file
  timestamp is positive).  time.Time.Before is strict comparison.
- Go int and int64 are modelled as Int; the quantities the claims
  are about stay far from overflow, which is noted where relevant.
- Go maps are modelled as association lists with unique keys built
  by an upsert operation; map iteration order is unspecified in Go,
  so consumers that iterate a map receive an arbitrary permutation
  of the entries (a relation, not a function).
- sort.Slice is specified, not implemented: Go documents only that
  the result is a permutation sorted by the comparator, and that it
  is NOT guaranteed to be stable.  It is modelled as the relation
  sortSliceOk.
- fmt %.1f / %.0f on the float64 quotients that arise here are
  modelled as exact rational rounding to nearest, ties to even,
  which is what Go computes whenever the quotient is exact in
  float64 (true for every value the claims mention).
-/

namespace FileScope

/-! ### Path helpers: strings.ToLower, filepath.Ext, filepath.Dir -/

/-- strings.ToLower, restricted to the ASCII mapping (the Unicode
simple case mapping agrees with this on ASCII path names). -/
def goToLowerChar (c : Char) : Char :=
  if 'A' ≤ c ∧ c ≤ 'Z' then Char.ofNat (c.toNat + 32) else c

def goToLower (s : String) : String :=
  String.mk (s.data.map goToLowerChar)

/-- The backward scan of filepath.Ext: the input is the reversed
character list of the path; acc holds the characters already passed
over, restored to source order.  Stops at the first path separator
(no extension) or at the first dot (extension starts at that dot,
dot included), mirroring the loop in path/filepath.Ext. -/
def extScan : List Char → List Char → List Char
  | _, [] => []
  | acc, c :: rest =>
    if c = '/' then [] else if c = '.' then '.' :: acc else extScan (c :: acc) rest

/-- filepath.Ext: the suffix of the final path element beginning at
its final dot (dot included); empty if the final element has no dot.
The POSIX separator is used. -/
def filepathExt (p : String) : String :=
  String.mk (extScan [] p.data.reverse)

/-- The extension key computed in the WalkDir callback:
strings.ToLower(filepath.Ext(path)), with the sentinel
no_extension substituted for the empty string. -/
def extKey (path : String) : String :=
  if goToLower (filepathExt path) = "" then "no_extension"
  else goToLower (filepathExt path)

/-- filepath.Dir: the path with its final element removed
(filepath.Clean of the remaining prefix is simplified to dropping
trailing separators; no claim depends on the textual form of the
directory key, only on each file mapping to exactly one key). -/
def filepathDir (p : String) : String :=
  let rev := p.data.reverse
  let rest := rev.dropWhile (fun c => c ≠ '/')
  let rest2 := rest.dropWhile (fun c => c = '/')
  if rest2 = [] then (if rest = [] then "." else "/") else String.mk rest2.reverse

/-! ### Data model -/

/-- FileInfo from main.go.  lastUsed is ModTime unless the access
time probe returned a nonzero time.  -/
structure FileInfo where
  path : String
  size : Int
  ext : String
  lastUsed : Int
deriving DecidableEq, Repr

structure AnalysisResults where
  totalFiles : Int
  totalSize : Int
  largestFiles : List FileInfo
  filesByExtension : List (String × Int)
  sizeByExtension : List (String × Int)
  oldestFiles : List FileInfo
  directorySizes : List (String × Int)
deriving DecidableEq, Repr

/-! ### Collector: the filepath.WalkDir callback in main -/

/-- One invocation of the WalkDir callback.  errEntry: called with a
non-nil err (this includes a failure to stat or read the root
itself, which Go delivers through the same callback).  infoErrEntry:
d.Info() failed.  fileEntry carries size, mod time and the result of
the access-time probe (0 when the probe returned the zero time). -/
inductive WalkEvent where
  | errEntry (path : String)
  | dirEntry (path : String)
  | infoErrEntry (path : String)
  | fileEntry (path : String) (size : Int) (modTime : Int) (atime : Int)
deriving DecidableEq, Repr

/-- Upsert into an association-list map, as Go map[k] += v. -/
def bumpI (m : List (String × Int)) (k : String) (v : Int) : List (String × Int) :=
  match m with
  | [] => [(k, v)]
  | (k', v') :: rest => if k' = k then (k', v' + v) :: rest else (k', v') :: bumpI rest k v

/-- Value stored under a key, 0 when absent (Go zero value). -/
def lookupI (m : List (String × Int)) (k : String) : Int :=
  match m with
  | [] => 0
  | (k', v') :: rest => if k' = k then v' else lookupI rest k

structure CollectState where
  files : List FileInfo
  totalSize : Int
  dirSizes : List (String × Int)
  logs : List String
deriving DecidableEq, Repr

/-- One step of the WalkDir callback body.  Error events are logged
and skipped (the callback returns nil on every path); directories
are skipped; files below the minimum size are dropped before any
aggregate sees them. -/
def collectStep (minSize : Int) (s : CollectState) (e : WalkEvent) : CollectState :=
  match e with
  | .errEntry p => { s with logs := s.logs ++ ["Error accessing " ++ p] }
  | .dirEntry _ => s
  | .infoErrEntry p => { s with logs := s.logs ++ ["Error getting info for " ++ p] }
  | .fileEntry p sz mt at_ =>
    if sz < minSize then s
    else
      { s with
        files := s.files ++ [{ path := p, size := sz, ext := extKey p,
                               lastUsed := if at_ ≠ 0 then at_ else mt }],
        totalSize := s.totalSize + sz,
        dirSizes := bumpI s.dirSizes (filepathDir p) sz }

def collect (minSize : Int) (events : List WalkEvent) : CollectState :=
  events.foldl (collectStep minSize) ⟨[], 0, [], []⟩

/-! ### Analyzer -/

/-- The size comparator passed to sort.Slice (descending by size). -/
def sizeLess (a b : FileInfo) : Bool := decide (b.size < a.size)

/-- The recency comparator passed to sort.Slice
(LastUsed.Before, ascending). -/
def timeLess (a b : FileInfo) : Bool := decide (a.lastUsed < b.lastUsed)

/-- Adjacent-pair check: le holds between each consecutive pair. -/
def pairOk (le : α → α → Bool) : List α → Bool
  | [] => true
  | [_] => true
  | a :: b :: rest => le a b && pairOk le (b :: rest)

/-- The postcondition Go documents for sort.Slice: the output is a
permutation of the input in which no later element is less (by the
supplied comparator) than an earlier adjacent one.  Stability is
explicitly NOT guaranteed. -/
def sortSliceOk (less : α → α → Bool) (input output : List α) : Prop :=
  List.Perm input output ∧ pairOk (fun a b => !less b a) output = true

/-- The extension-grouping pass of analyzeFiles: one pass over the
records accumulating count and size per extension key. -/
def groupByExt (files : List FileInfo) : List (String × Int) × List (String × Int) :=
  files.foldl (fun m f => (bumpI m.1 f.ext 1, bumpI m.2 f.ext f.size)) ([], [])

/-- analyzeFiles as a relation (relational because sort.Slice is
nondeterministic up to the order of equal keys).  daysUnused is a
parameter of the Go function but is never read by its body. -/
def analyzeFilesRel (files : List FileInfo) (totalSize : Int)
    (dirSizes : List (String × Int)) (daysUnused : Int) (r : AnalysisResults) : Prop :=
  List.Perm files r.largestFiles ∧
  pairOk (fun a b => !sizeLess b a) r.largestFiles = true ∧
  List.Perm files r.oldestFiles ∧
  pairOk (fun a b => !timeLess b a) r.oldestFiles = true ∧
  r.filesByExtension = (groupByExt files).1 ∧
  r.sizeByExtension = (groupByExt files).2 ∧
  r.totalFiles = (files.length : Int) ∧
  r.totalSize = totalSize ∧
  r.directorySizes = dirSizes

/-! ### main: branch structure and outcome -/

inductive Outcome where
  | usageError
  | fatalWalkError (msg : String)
  | noFiles
  | report
deriving DecidableEq, Repr

def isFatalOutcome : Outcome → Bool
  | .fatalWalkError _ => true
  | _ => false

/-- The value the WalkDir callback returns for one event: the source
returns nil on every control path (errors are printed, then nil). -/
def callbackResult (e : WalkEvent) : Option String := none

/-- The error filepath.WalkDir reports to main: the first non-nil
value returned by the callback (none here, since the callback always
returns nil). -/
def walkDirErr (events : List WalkEvent) : Option String :=
  events.foldl (fun acc e => acc <|> callbackResult e) none

/-- The branch structure of main after flag parsing: empty -dir is a
usage error; a non-nil WalkDir error would be fatal; zero collected
files prints an informational message and returns; otherwise the
report is produced.  Returns the outcome and the diagnostic lines
printed before or instead of the report. -/
def runMain (dir : String) (minSize : Int) (events : List WalkEvent) :
    Outcome × List String :=
  if dir = "" then (.usageError, ["Error: directory path cannot be empty"])
  else
    let s := collect minSize events
    match walkDirErr events with
    | some m => (.fatalWalkError m, s.logs ++ ["Error walking directory: " ++ m])
    | none =>
      if s.files.isEmpty then (.noFiles, s.logs ++ ["No files found matching the criteria."])
      else (.report, s.logs)

/-! ### Reporter -/

def nsSecond : Int := 1000000000
def nsMinute : Int := 60 * nsSecond
def nsHour : Int := 60 * nsMinute
def nsDay : Int := 24 * nsHour

/-- Round num/den to the nearest integer, ties to even: the rounding
fmt applies for %.0f (and, scaled by ten, for %.1f) when the float64
quotient is exact. -/
def roundHalfEven (num den : Nat) : Nat :=
  if den < 2 * (num % den) then num / den + 1
  else if 2 * (num % den) < den then num / den
  else if (num / den) % 2 = 0 then num / den else num / den + 1

/-- The unit-selection loop of formatSize with an explicit iteration
bound (the loop variable strictly decreases, so fuel n always
suffices; with exhausted fuel the quotient is 0 and the loop would
stop anyway). -/
def sizeDivExpFuel : Nat → Nat → Nat → Nat → Nat × Nat
  | 0, _, div, exp => (div, exp)
  | fuel + 1, n, div, exp =>
    if 1024 ≤ n then sizeDivExpFuel fuel (n / 1024) (div * 1024) (exp + 1)
    else (div, exp)

/-- The unit-selection loop of formatSize: repeatedly divide by 1024
while the quotient is at least 1024, accumulating the divisor and the
unit index. -/
def sizeDivExp (n div exp : Nat) : Nat × Nat := sizeDivExpFuel n n div exp

/-- The unit letter "KMGTPE"[exp] of formatSize.  For int64 inputs
exp never exceeds 5. -/
def unitStr (exp : Nat) : String :=
  match exp with
  | 0 => "K"
  | 1 => "M"
  | 2 => "G"
  | 3 => "T"
  | 4 => "P"
  | _ => "E"

/-- formatSize from main.go.  Sizes below 1024 render as an integer
with the unit B; otherwise the size is scaled by the largest power of
1024 for which the quotient stays at least 1 and rendered with one
decimal digit (%.1f modelled as exact rounding, ties to even; exact
for sizes below 2^53). -/
def formatSize (size : Int) : String :=
  if size < 1024 then toString size ++ " B"
  else
    let p := sizeDivExp (size.toNat / 1024) 1024 0
    let t := roundHalfEven (size.toNat * 10) p.1
    toString (t / 10) ++ "." ++ toString (t % 10) ++ " " ++ unitStr p.2 ++ "iB"

/-- formatTime from main.go, with time.Time modelled as Int
nanoseconds and the zero time as 0.  diff.Minutes()/Hours() etc.
followed by %.0f are modelled as exact rounding of the elapsed
nanoseconds by the unit, ties to even. -/
def formatTime (now t : Int) : String :=
  if t = 0 then "unknown"
  else
    let diff := now - t
    if diff < nsMinute then "just now"
    else if diff < nsHour then
      toString (roundHalfEven diff.toNat nsMinute.toNat) ++ " minutes ago"
    else if diff < 24 * nsHour then
      toString (roundHalfEven diff.toNat nsHour.toNat) ++ " hours ago"
    else if diff < 30 * nsDay then
      toString (roundHalfEven diff.toNat nsDay.toNat) ++ " days ago"
    else if diff < 365 * nsDay then
      toString (roundHalfEven diff.toNat (30 * nsDay).toNat) ++ " months ago"
    else
      toString (roundHalfEven diff.toNat (365 * nsDay).toNat) ++ " years ago"

/-- The staleness cutoff time.Now().AddDate(0, 0, -daysUnused),
modelled as now minus daysUnused uniform 24-hour days. -/
def cutoffOf (now daysUnused : Int) : Int := now - daysUnused * nsDay

/-- The loop of the unused-files section of printAnalysis: walk the
recency-sorted records, print a record only when its lastUsed is
strictly before the cutoff, and break once the printed counter has
reached topN (the counter is checked only after an entry has been
printed). -/
def unusedLoop (cutoff topN : Int) : List FileInfo → Int → List FileInfo
  | [], _ => []
  | f :: rest, printed =>
    if f.lastUsed < cutoff then
      if topN ≤ printed + 1 then [f]
      else f :: unusedLoop cutoff topN rest (printed + 1)
    else unusedLoop cutoff topN rest printed

/-- The unused-files section: the emitted entries, plus the flag that
the literal none-found line is printed (printed == 0, i.e. zero
entries were emitted). -/
def unusedSection (oldest : List FileInfo) (topN cutoff : Int) :
    List FileInfo × Bool :=
  let es := unusedLoop cutoff topN oldest 0
  (es, es.isEmpty)

/-- The largest-files section: the loop for i := 0; i < topN && i <
len(largestFiles); i++ emits exactly the first topN entries (none
when topN is not positive; Int.toNat sends nonpositive to 0). -/
def largestSection (r : AnalysisResults) (topN : Int) : List FileInfo :=
  r.largestFiles.take topN.toNat

/-- printSortedMap as a relation: Go map iteration yields the entries
in an unspecified order, sort.Slice (unstable) orders them descending
by value, and the loop emits the first topN.  So the output is the
topN-prefix of some value-descending permutation of the map. -/
def printSortedMapRel (m : List (String × Int)) (topN : Int)
    (out : List (String × Int)) : Prop :=
  ∃ sorted, List.Perm m sorted ∧
    pairOk (fun a b : String × Int => decide (b.2 ≤ a.2)) sorted = true ∧
    out = sorted.take topN.toNat

/-! ### Definitions taken from the spec words, for comparison -/

/-- Not the path separator. -/
def notSep (c : Char) : Bool := c ≠ '/'

/-- Neither the path separator nor a dot. -/
def notSepDot (c : Char) : Bool := c ≠ '/' && c ≠ '.'

/-- Whether a character list has a dot. -/
def hasDot : List Char → Bool
  | [] => false
  | c :: rest => c = '.' || hasDot rest

/-- The reversed-order final element of a path (the filename). -/
def lastElemChars (p : String) : List Char :=
  (p.data.reverse.takeWhile notSep).reverse

/-- Not a dot. -/
def notDot (c : Char) : Bool := c ≠ '.'

/-- The characters of a filename after its final dot. -/
def afterLastDot (l : List Char) : List Char :=
  (l.reverse.takeWhile notDot).reverse

/-- Modelled from the claim C1 words: the extension key as the
substring of the filename after the final dot, lower-cased, with no
leading dot; the sentinel when the filename contains no dot. -/
def claimExtKey (p : String) : String :=
  if hasDot (lastElemChars p) then
    goToLower (String.mk (afterLastDot (lastElemChars p)))
  else "no_extension"

/-- The amended description of the code's key: the suffix of the
filename from the final dot INCLUSIVE, lower-cased; the sentinel when
the filename contains no dot. -/
def specExtKeyDotted (p : String) : String :=
  if hasDot (lastElemChars p) then
    goToLower (String.mk ('.' :: afterLastDot (lastElemChars p)))
  else "no_extension"

/-- Stable insertion: a is placed before the first element b for
which before a b holds; elements it is not placed before keep their
relative order. -/
def insertStable (before : α → α → Bool) (a : α) : List α → List α
  | [] => [a]
  | b :: l => if before a b then a :: b :: l else b :: insertStable before a l

/-- Stable sort by the given placement predicate (insertion sort);
used as the meaning of the stable sort the spec asserts. -/
def stableSortBy (before : α → α → Bool) (l : List α) : List α :=
  l.foldr (insertStable before) []

/-- Placement predicate of the stable descending-by-size sort the
spec claims: a record goes before the first record it is at least as
large as. -/
def sizeGe (a b : FileInfo) : Bool := decide (b.size ≤ a.size)

/-- Lexicographic order on character lists. -/
def charListLe : List Char → List Char → Bool
  | [], _ => true
  | _ :: _, [] => false
  | a :: as, b :: bs => if a = b then charListLe as bs else decide (a < b)

/-- Lexicographic order on keys. -/
def keyLe (a b : String) : Bool := charListLe a.data b.data

/-- Placement predicate for the canonical ranking claim C9 makes:
descending by value, ties in ascending key order. -/
def valKeyBefore (a b : String × Int) : Bool :=
  decide (b.2 < a.2) || (decide (a.2 = b.2) && keyLe a.1 b.1)

/-- Descending placement predicate on bare values. -/
def intGe (a b : Int) : Bool := decide (b ≤ a)

/-- Sum of the values of an association-list map. -/
def sumVals (m : List (String × Int)) : Int := (m.map Prod.snd).sum

/-- Total size of a record list. -/
def filesSize (l : List FileInfo) : Int := (l.map FileInfo.size).sum

/-- The event filter claim C3 speaks about: a file event below the
minimum size is the only kind of event dropped. -/
def keepEvent (minSize : Int) : WalkEvent → Bool
  | .fileEntry _ sz _ _ => decide (minSize ≤ sz)
  | _ => true

/-! ### Helper lemmas -/

theorem sumVals_bumpI (m : List (String × Int)) (k : String) (v : Int) :
    sumVals (bumpI m k v) = sumVals m + v := by
  induction m with
  | nil => simp [bumpI, sumVals]
  | cons p rest ih =>
    obtain ⟨k', v'⟩ := p
    by_cases h : k' = k
    · simp [bumpI, h, sumVals]
      ring
    · simp only [bumpI, if_neg h, sumVals, List.map_cons, List.sum_cons]
      have := ih
      simp only [sumVals] at this
      rw [this]
      ring

theorem pairOk_pairwise (le : α → α → Bool) (R : α → α → Prop)
    (hle : ∀ a b, le a b = true → R a b) (htr : Transitive R) :
    ∀ l : List α, pairOk le l = true → l.Pairwise R := by
  intro l
  induction l with
  | nil => intro; exact List.Pairwise.nil
  | cons a rest ih =>
    cases rest with
    | nil => intro; exact List.pairwise_singleton R a
    | cons b r2 =>
      intro h
      simp only [pairOk, Bool.and_eq_true] at h
      have hp := ih h.2
      refine List.Pairwise.cons ?_ hp
      intro x hx
      have hab : R a b := hle _ _ h.1
      rcases List.mem_cons.mp hx with rfl | hx
      · exact hab
      · rcases List.pairwise_cons.mp hp with ⟨hb, _⟩
        exact htr hab (hb x hx)

theorem pairOk_size {l : List FileInfo} (h : pairOk (fun a b => !sizeLess b a) l = true) :
    l.Pairwise (fun a b => b.size ≤ a.size) := by
  refine pairOk_pairwise _ _ ?_ ?_ l h
  · intro a b hab
    simp only [sizeLess, Bool.not_eq_true', decide_eq_false_iff_not, not_lt] at hab
    exact hab
  · intro a b c h1 h2
    exact le_trans h2 h1

theorem pairOk_time {l : List FileInfo} (h : pairOk (fun a b => !timeLess b a) l = true) :
    l.Pairwise (fun a b => a.lastUsed ≤ b.lastUsed) := by
  refine pairOk_pairwise _ _ ?_ ?_ l h
  · intro a b hab
    simp only [timeLess, Bool.not_eq_true', decide_eq_false_iff_not, not_lt] at hab
    exact hab
  · intro a b c h1 h2
    exact le_trans h1 h2

theorem pairOk_val {l : List (String × Int)}
    (h : pairOk (fun a b : String × Int => decide (b.2 ≤ a.2)) l = true) :
    l.Pairwise (fun a b => b.2 ≤ a.2) := by
  refine pairOk_pairwise _ _ ?_ ?_ l h
  · intro a b hab
    simpa using hab
  · intro a b c h1 h2
    exact le_trans h2 h1

/-- Invariant of the collection fold: the running total equals the
total size of the collected records, the per-directory totals sum to
the running total, and every collected record meets the size floor. -/
def collectInv (minSize : Int) (s : CollectState) : Prop :=
  s.totalSize = filesSize s.files ∧
  sumVals s.dirSizes = s.totalSize ∧
  ∀ f ∈ s.files, minSize ≤ f.size

theorem collectStep_inv (minSize : Int) (s : CollectState) (e : WalkEvent)
    (h : collectInv minSize s) : collectInv minSize (collectStep minSize s e) := by
  obtain ⟨h1, h2, h3⟩ := h
  cases e with
  | errEntry p => exact ⟨h1, h2, h3⟩
  | dirEntry p => exact ⟨h1, h2, h3⟩
  | infoErrEntry p => exact ⟨h1, h2, h3⟩
  | fileEntry p sz mt at_ =>
    by_cases hsz : sz < minSize
    · simp only [collectStep, if_pos hsz]
      exact ⟨h1, h2, h3⟩
    · simp only [collectStep, if_neg hsz]
      refine ⟨?_, ?_, ?_⟩
      · simp [filesSize, h1]
      · simp only [sumVals_bumpI, h2, h1]
      · intro f hf
        rcases List.mem_append.mp hf with hf | hf
        · exact h3 f hf
        · simp only [List.mem_singleton] at hf
          subst hf
          exact le_of_not_lt hsz

theorem foldl_collect_inv (minSize : Int) (events : List WalkEvent) :
    ∀ s : CollectState, collectInv minSize s →
      collectInv minSize (events.foldl (collectStep minSize) s) := by
  induction events with
  | nil => intro s h; exact h
  | cons e rest ih =>
    intro s h
    exact ih _ (collectStep_inv minSize s e h)

theorem collect_inv (minSize : Int) (events : List WalkEvent) :
    collectInv minSize (collect minSize events) := by
  refine foldl_collect_inv minSize events _ ?_
  refine ⟨rfl, rfl, ?_⟩
  intro f hf
  cases hf

/-- A dropped event (a file strictly below the size floor) leaves the
collector state untouched. -/
theorem collectStep_dropped (minSize : Int) (s : CollectState) (e : WalkEvent)
    (h : keepEvent minSize e = false) : collectStep minSize s e = s := by
  cases e with
  | errEntry p => cases h
  | dirEntry p => cases h
  | infoErrEntry p => cases h
  | fileEntry p sz mt at_ =>
    simp only [keepEvent, decide_eq_false_iff_not, not_le] at h
    simp [collectStep, if_pos h]

theorem foldl_collect_filter (minSize : Int) (events : List WalkEvent) :
    ∀ s : CollectState,
      events.foldl (collectStep minSize) s =
        (events.filter (keepEvent minSize)).foldl (collectStep minSize) s := by
  induction events with
  | nil => intro s; rfl
  | cons e rest ih =>
    intro s
    by_cases hk : keepEvent minSize e
    · simp only [List.foldl_cons, List.filter_cons, hk, if_pos trivial]
      exact ih _
    · have hk' : keepEvent minSize e = false := by
        simpa using hk
      simp only [List.foldl_cons, List.filter_cons, hk', collectStep_dropped minSize s e hk']
      simpa using ih s

/-- Files strictly below the size floor contribute to no aggregate:
collecting a walk is the same as collecting the walk with those file
events removed. -/
theorem collect_filter (minSize : Int) (events : List WalkEvent) :
    collect minSize events = collect minSize (events.filter (keepEvent minSize)) :=
  foldl_collect_filter minSize events _

theorem groupByExt_aux (files : List FileInfo) :
    ∀ m : List (String × Int) × List (String × Int),
      sumVals (files.foldl (fun m f => (bumpI m.1 f.ext 1, bumpI m.2 f.ext f.size)) m).1 =
        sumVals m.1 + (files.length : Int) ∧
      sumVals (files.foldl (fun m f => (bumpI m.1 f.ext 1, bumpI m.2 f.ext f.size)) m).2 =
        sumVals m.2 + filesSize files := by
  induction files with
  | nil => intro m; simp [filesSize]
  | cons f rest ih =>
    intro m
    obtain ⟨ih1, ih2⟩ := ih (bumpI m.1 f.ext 1, bumpI m.2 f.ext f.size)
    constructor
    · rw [List.foldl_cons, ih1]
      simp [sumVals_bumpI]
      ring
    · rw [List.foldl_cons, ih2]
      simp [sumVals_bumpI, filesSize]
      ring

/-- The extension grouping pass attributes each record exactly once:
counts sum to the record count and sizes sum to the total size. -/
theorem groupByExt_sums (files : List FileInfo) :
    sumVals (groupByExt files).1 = (files.length : Int) ∧
    sumVals (groupByExt files).2 = filesSize files := by
  have h := groupByExt_aux files ([], [])
  simpa [groupByExt, sumVals] using h

/-- The staleness qualifier of the unused-files section. -/
def staleB (cutoff : Int) (f : FileInfo) : Bool := decide (f.lastUsed < cutoff)

theorem unusedLoop_take (cutoff topN : Int) (l : List FileInfo) :
    ∀ printed : Int, printed < topN →
      unusedLoop cutoff topN l printed =
        (l.filter (staleB cutoff)).take (topN - printed).toNat := by
  induction l with
  | nil => intro printed h; simp [unusedLoop]
  | cons f rest ih =>
    intro printed h
    by_cases hq : f.lastUsed < cutoff
    · have hqB : staleB cutoff f = true := by simp [staleB, hq]
      by_cases hstop : topN ≤ printed + 1
      · have htop : topN = printed + 1 := le_antisymm hstop (by omega)
        simp only [unusedLoop, if_pos hq, if_pos hstop, List.filter_cons, hqB, if_pos trivial]
        have : (topN - printed).toNat = 1 := by omega
        rw [this]
        rfl
      · simp only [unusedLoop, if_pos hq, if_neg hstop, List.filter_cons, hqB, if_pos trivial]
        rw [ih (printed + 1) (by omega)]
        have : (topN - printed).toNat = (topN - (printed + 1)).toNat + 1 := by omega
        rw [this]
        rfl
    · have hqB : staleB cutoff f = false := by simp [staleB, hq]
      simp only [unusedLoop, if_neg hq, List.filter_cons, hqB]
      exact ih printed h

theorem unusedLoop_nonpos (cutoff topN : Int) (l : List FileInfo) :
    ∀ printed : Int, topN ≤ printed →
      unusedLoop cutoff topN l printed = (l.filter (staleB cutoff)).take 1 := by
  induction l with
  | nil => intro printed h; simp [unusedLoop]
  | cons f rest ih =>
    intro printed h
    by_cases hq : f.lastUsed < cutoff
    · have hqB : staleB cutoff f = true := by simp [staleB, hq]
      simp only [unusedLoop, if_pos hq, if_pos (by omega : topN ≤ printed + 1),
        List.filter_cons, hqB, if_pos trivial]
      rfl
    · have hqB : staleB cutoff f = false := by simp [staleB, hq]
      simp only [unusedLoop, if_neg hq, List.filter_cons, hqB]
      exact ih printed h

/-- The WalkDir callback returns nil on every path, so WalkDir never
reports an error to main: the fatal branch after the walk is
unreachable. -/
theorem walkDirErr_none (events : List WalkEvent) : walkDirErr events = none := by
  have h : ∀ acc : Option String,
      events.foldl (fun acc e => acc <|> callbackResult e) acc = acc := by
    induction events with
    | nil => intro acc; rfl
    | cons e rest ih =>
      intro acc
      rw [List.foldl_cons]
      rw [ih]
      cases acc <;> rfl
  exact h none

/-- roundHalfEven num den is a nearest integer to num/den: it is
within half of den on either side. -/
theorem roundHalfEven_nearest (num den : Nat) (hden : 0 < den) :
    2 * roundHalfEven num den * den ≤ 2 * num + den ∧
    2 * num ≤ 2 * roundHalfEven num den * den + den := by
  unfold roundHalfEven
  have hqr := Nat.div_add_mod num den
  have hlt := Nat.mod_lt num hden
  generalize hq : num / den = q at hqr ⊢
  generalize hr : num % den = r at hqr hlt ⊢
  subst hqr
  split_ifs <;> constructor <;> nlinarith

theorem sizeDivExpFuel_spec (size : Nat) :
    ∀ fuel n div exp : Nat, n ≤ fuel → div = 1024 ^ (exp + 1) → n = size / div →
      (sizeDivExpFuel fuel n div exp).1 =
        1024 ^ ((sizeDivExpFuel fuel n div exp).2 + 1) ∧
      size / (sizeDivExpFuel fuel n div exp).1 < 1024 ∧
      (1 ≤ n → 1 ≤ size / (sizeDivExpFuel fuel n div exp).1) ∧
      exp ≤ (sizeDivExpFuel fuel n div exp).2 := by
  intro fuel
  induction fuel with
  | zero =>
    intro n div exp hf hdiv hn
    have hz : n = 0 := by omega
    simp only [sizeDivExpFuel]
    refine ⟨hdiv, ?_, ?_, le_refl exp⟩
    · rw [← hn, hz]
      omega
    · intro h1
      rw [← hn]
      omega
  | succ fuel ih =>
    intro n div exp hf hdiv hn
    rw [sizeDivExpFuel]
    split_ifs with h
    · have hlt : n / 1024 < n := Nat.div_lt_self (by omega) (by omega)
      have hdiv' : div * 1024 = 1024 ^ (exp + 1 + 1) := by
        rw [hdiv]
        ring
      have hn' : n / 1024 = size / (div * 1024) := by
        rw [hn, Nat.div_div_eq_div_mul]
      obtain ⟨g1, g2, g3, g4⟩ := ih (n / 1024) (div * 1024) (exp + 1)
        (by omega) hdiv' hn'
      refine ⟨g1, g2, ?_, by omega⟩
      intro _
      exact g3 ((Nat.one_le_div_iff (by omega)).mpr h)
    · refine ⟨hdiv, ?_, ?_, le_refl exp⟩
      · rw [← hn]; omega
      · intro h1; rw [← hn]; exact h1

theorem sizeDivExp_spec (size : Nat) :
    ∀ n div exp : Nat, div = 1024 ^ (exp + 1) → n = size / div →
      (sizeDivExp n div exp).1 = 1024 ^ ((sizeDivExp n div exp).2 + 1) ∧
      size / (sizeDivExp n div exp).1 < 1024 ∧
      (1 ≤ n → 1 ≤ size / (sizeDivExp n div exp).1) ∧
      exp ≤ (sizeDivExp n div exp).2 := by
  intro n div exp hdiv hn
  exact sizeDivExpFuel_spec size n n div exp (le_refl n) hdiv hn

theorem insertStable_perm (c : α → α → Bool) (a : α) (l : List α) :
    List.Perm (insertStable c a l) (a :: l) := by
  induction l with
  | nil => exact List.Perm.refl _
  | cons b rest ih =>
    by_cases h : c a b
    · simp [insertStable, h]
    · simp only [insertStable, if_neg h]
      exact (ih.cons b).trans (List.Perm.swap a b rest)

theorem stableSortBy_perm (c : α → α → Bool) (l : List α) :
    List.Perm (stableSortBy c l) l := by
  induction l with
  | nil => exact List.Perm.refl _
  | cons a rest ih =>
    simp only [stableSortBy, List.foldr_cons]
    exact (insertStable_perm c a _).trans (ih.cons a)

theorem insertStable_sorted_intGe (a : Int) (l : List Int)
    (h : l.Pairwise (fun x y => y ≤ x)) :
    (insertStable intGe a l).Pairwise (fun x y => y ≤ x) := by
  induction l with
  | nil => exact List.pairwise_singleton _ a
  | cons b rest ih =>
    rcases List.pairwise_cons.mp h with ⟨hb, hrest⟩
    by_cases hc : intGe a b
    · simp only [insertStable, if_pos hc]
      refine List.pairwise_cons.mpr ⟨?_, h⟩
      intro x hx
      have hba : b ≤ a := by simpa [intGe] using hc
      rcases List.mem_cons.mp hx with rfl | hx
      · exact hba
      · exact le_trans (hb x hx) hba
    · simp only [insertStable, if_neg hc]
      refine List.pairwise_cons.mpr ⟨?_, ih hrest⟩
      intro x hx
      have hx' : x ∈ a :: rest := (insertStable_perm intGe a rest).mem_iff.mp hx
      have hab : a ≤ b := by
        have : ¬ b ≤ a := by simpa [intGe] using hc
        omega
      rcases List.mem_cons.mp hx' with rfl | hx'
      · exact hab
      · exact hb x hx'

theorem stableSortBy_sorted_intGe (l : List Int) :
    (stableSortBy intGe l).Pairwise (fun x y => y ≤ x) := by
  induction l with
  | nil => exact List.Pairwise.nil
  | cons a rest ih =>
    simp only [stableSortBy, List.foldr_cons]
    exact insertStable_sorted_intGe a _ ih

/-- The backward extension scan, characterised: if the reversed path
has a dot before any separator, the result is that dot followed by
the passed-over characters; otherwise it is empty. -/
theorem extScan_eq (l : List Char) :
    ∀ acc : List Char,
      extScan acc l =
        if hasDot (l.takeWhile notSep) then
          '.' :: ((l.takeWhile notSepDot).reverse ++ acc)
        else [] := by
  induction l with
  | nil => intro acc; simp [extScan, hasDot]
  | cons c rest ih =>
    intro acc
    by_cases h1 : c = '/'
    · subst h1
      have hs : notSep '/' = false := by decide
      rw [extScan]
      simp [List.takeWhile_cons, hs, hasDot]
    · by_cases h2 : c = '.'
      · subst h2
        have hs : notSep '.' = true := by decide
        have hd : notSepDot '.' = false := by decide
        rw [extScan]
        simp [List.takeWhile_cons, hs, hd, hasDot, h1]
      · have hs : notSep c = true := by simp [notSep, h1]
        have hd : notSepDot c = true := by simp [notSepDot, h1, h2]
        rw [extScan]
        simp only [if_neg h1, if_neg h2]
        rw [ih (c :: acc)]
        rw [List.takeWhile_cons, List.takeWhile_cons, hs, hd]
        simp only [if_pos trivial]
        have hdot : hasDot (c :: rest.takeWhile notSep) = hasDot (rest.takeWhile notSep) := by
          simp [hasDot, h2]
        rw [hdot]
        split_ifs with h3
        · simp
        · rfl

theorem hasDot_iff (l : List Char) : hasDot l = true ↔ '.' ∈ l := by
  induction l with
  | nil => simp [hasDot]
  | cons c rest ih =>
    simp only [hasDot, Bool.or_eq_true, decide_eq_true_eq, ih, List.mem_cons]
    constructor
    · rintro (h | h)
      · exact Or.inl h.symm
      · exact Or.inr h
    · rintro (h | h)
      · exact Or.inl h.symm
      · exact Or.inr h

theorem hasDot_reverse (l : List Char) : hasDot l.reverse = hasDot l := by
  cases h : hasDot l
  · have h0 : ¬ '.' ∈ l := fun hm => by simp [(hasDot_iff l).mpr hm] at h
    have h2 : hasDot l.reverse ≠ true :=
      fun hr => h0 (List.mem_reverse.mp ((hasDot_iff l.reverse).mp hr))
    simpa using h2
  · exact (hasDot_iff l.reverse).mpr (List.mem_reverse.mpr ((hasDot_iff l).mp h))

theorem takeWhile_notSep_dot (l : List Char) :
    (l.takeWhile notSep).takeWhile notDot = l.takeWhile notSepDot := by
  induction l with
  | nil => rfl
  | cons c rest ih =>
    by_cases h1 : c = '/'
    · subst h1
      have hs : ¬ notSep '/' = true := by decide
      rw [List.takeWhile_cons_of_neg hs, List.takeWhile_cons_of_neg (by decide)]
      rfl
    · by_cases h2 : c = '.'
      · subst h2
        have hs : notSep '.' = true := by decide
        rw [List.takeWhile_cons_of_pos hs,
          List.takeWhile_cons_of_neg (by decide : ¬ notDot '.' = true),
          List.takeWhile_cons_of_neg (by decide : ¬ notSepDot '.' = true)]
      · have hs : notSep c = true := by simp [notSep, h1]
        have hd : notSepDot c = true := by simp [notSepDot, h1, h2]
        have hne : notDot c = true := by simp [notDot, h2]
        rw [List.takeWhile_cons_of_pos hs, List.takeWhile_cons_of_pos hne,
          List.takeWhile_cons_of_pos hd, ih]

theorem goToLower_mk (l : List Char) :
    goToLower (String.mk l) = String.mk (l.map goToLowerChar) := rfl

theorem goToLower_cons_ne_empty (c : Char) (cs : List Char) :
    goToLower (String.mk (c :: cs)) ≠ "" := by
  intro h
  have h2 := congrArg String.data h
  simp [goToLower] at h2

/-- The code's extension key equals the amended description: the
lower-cased suffix of the filename from its final dot INCLUSIVE, with
the sentinel when the filename has no dot. -/
theorem extKey_eq_dotted (p : String) : extKey p = specExtKeyDotted p := by
  have hafter : afterLastDot (lastElemChars p) =
      (p.data.reverse.takeWhile notSepDot).reverse := by
    unfold afterLastDot lastElemChars
    rw [List.reverse_reverse, takeWhile_notSep_dot]
  have hrev : hasDot (lastElemChars p) = hasDot (p.data.reverse.takeWhile notSep) := by
    unfold lastElemChars
    rw [hasDot_reverse]
  unfold extKey specExtKeyDotted filepathExt
  rw [extScan_eq, hafter, hrev]
  by_cases h : hasDot (p.data.reverse.takeWhile notSep) = true
  · rw [if_pos h, if_pos h, List.append_nil]
    rw [if_neg (goToLower_cons_ne_empty _ _)]
  · rw [if_neg h, if_neg h]
    have hε : goToLower (String.mk []) = "" := rfl
    rw [hε, if_pos rfl]

/-! ### Claim theorems -/

/-- C1 (counterexample): the extension key the code aggregates under
keeps the leading dot: for the file a.TXT the key is .txt, not the
dot-free txt the claim states, so the aggregate for a.TXT and b.txt
lives under the key .txt and the key txt holds nothing. -/
theorem c1_counterexample :
    extKey "a.TXT" = ".txt" ∧
    claimExtKey "a.TXT" = "txt" ∧
    (".txt" : String) ≠ "txt" ∧
    (groupByExt (collect 0 [WalkEvent.fileEntry "a.TXT" 100 5 0,
        WalkEvent.fileEntry "b.txt" 200 5 0]).files).1 = [(".txt", 2)] ∧
    lookupI (groupByExt (collect 0 [WalkEvent.fileEntry "a.TXT" 100 5 0,
        WalkEvent.fileEntry "b.txt" 200 5 0]).files).1 "txt" = 0 := by
  refine ⟨by decide, by decide, by decide, by decide, by decide⟩

/-- C1 (amended): the extension key used in the aggregates is the
suffix of the filename from the final dot INCLUSIVE, lower-cased
(sentinel no_extension when the filename has no dot); files a.TXT
(100 B) and b.txt (200 B) hence both aggregate under the single key
.txt with count 2 and size 300. -/
theorem c1_ext_key (p : String) :
    extKey p = specExtKeyDotted p ∧
    (groupByExt (collect 0 [WalkEvent.fileEntry "a.TXT" 100 5 0,
        WalkEvent.fileEntry "b.txt" 200 5 0]).files).1 = [(".txt", 2)] ∧
    (groupByExt (collect 0 [WalkEvent.fileEntry "a.TXT" 100 5 0,
        WalkEvent.fileEntry "b.txt" 200 5 0]).files).2 = [(".txt", 300)] :=
  ⟨extKey_eq_dotted p, by decide, by decide⟩

/-- C2 (counterexample): when the walk cannot even be started (the
root does not exist), the run does NOT take the fatal walk-error
branch: the callback logs the root error and swallows it, and the
run ends through the informational no-files path with a normal
return. -/
theorem c2_counterexample :
    (runMain "/missing" 1000000 [WalkEvent.errEntry "/missing"]).1 = Outcome.noFiles ∧
    isFatalOutcome (runMain "/missing" 1000000 [WalkEvent.errEntry "/missing"]).1 = false ∧
    (runMain "/missing" 1000000 [WalkEvent.errEntry "/missing"]).2 =
      ["Error accessing /missing", "No files found matching the criteria."] := by
  refine ⟨by decide, by decide, by decide⟩

/-- C2 (amended): if the walk fails at the root, no aggregates and no
report are produced: the root error is logged as a per-entry
diagnostic, zero files are collected, and the run returns early
through the no-files message; the fatal walk-error branch of main is
unreachable because the callback always returns nil. -/
theorem c2_root_failure (root : String) (minSize : Int) (h : root ≠ "") :
    runMain root minSize [WalkEvent.errEntry root] =
      (Outcome.noFiles,
        ["Error accessing " ++ root, "No files found matching the criteria."]) ∧
    (collect minSize [WalkEvent.errEntry root]).files = [] ∧
    ∀ events : List WalkEvent, walkDirErr events = none := by
  refine ⟨?_, rfl, walkDirErr_none⟩
  unfold runMain
  rw [if_neg h]
  rfl

/-- C2 witness. -/
theorem c2_root_failure_witness :
    ("/missing" : String) ≠ "" ∧
    runMain "/missing" 1000000 [WalkEvent.errEntry "/missing"] =
      (Outcome.noFiles,
        ["Error accessing " ++ "/missing", "No files found matching the criteria."]) :=
  ⟨by decide, (c2_root_failure "/missing" 1000000 (by decide)).1⟩

/-- C3: a file strictly below the size floor contributes to no
aggregate at all: dropping those file events from the walk leaves the
whole collector state unchanged, every collected record has size at
least the floor, and through the permutation property of the sorts
every record of both ranked sequences does too. -/
theorem c3_min_size_filter (minSize : Int) (events : List WalkEvent)
    (hmin : 0 ≤ minSize) :
    collect minSize events = collect minSize (events.filter (keepEvent minSize)) ∧
    (∀ f ∈ (collect minSize events).files, minSize ≤ f.size) ∧
    ∀ daysUnused r,
      analyzeFilesRel (collect minSize events).files
        (collect minSize events).totalSize (collect minSize events).dirSizes
        daysUnused r →
      (∀ f ∈ r.largestFiles, minSize ≤ f.size) ∧
      (∀ f ∈ r.oldestFiles, minSize ≤ f.size) := by
  obtain ⟨-, -, h3⟩ := collect_inv minSize events
  refine ⟨collect_filter minSize events, h3, ?_⟩
  intro daysUnused r hrel
  obtain ⟨hp1, -, hp2, -, -, -, -, -, -⟩ := hrel
  constructor
  · intro f hf
    exact h3 f (hp1.mem_iff.mpr hf)
  · intro f hf
    exact h3 f (hp2.mem_iff.mpr hf)

/-- C3 witness. -/
theorem c3_min_size_filter_witness :
    (0 : Int) ≤ 1000000 ∧
    (collect 1000000 [WalkEvent.fileEntry "big.bin" 2000000 5 0,
        WalkEvent.fileEntry "small.txt" 10 5 0] =
      collect 1000000 ([WalkEvent.fileEntry "big.bin" 2000000 5 0,
        WalkEvent.fileEntry "small.txt" 10 5 0].filter (keepEvent 1000000))) :=
  ⟨by decide,
    (c3_min_size_filter 1000000
      [WalkEvent.fileEntry "big.bin" 2000000 5 0,
       WalkEvent.fileEntry "small.txt" 10 5 0] (by decide)).1⟩

/-- C4: aggregate totals are conserved: the values of
countByExtension sum to totalFileCount, and the values of
sizeByExtension and of sizeByDirectory each sum to totalSizeBytes. -/
theorem c4_conservation (minSize daysUnused : Int) (events : List WalkEvent)
    (r : AnalysisResults)
    (hrel : analyzeFilesRel (collect minSize events).files
      (collect minSize events).totalSize (collect minSize events).dirSizes
      daysUnused r) :
    sumVals r.filesByExtension = r.totalFiles ∧
    sumVals r.sizeByExtension = r.totalSize ∧
    sumVals r.directorySizes = r.totalSize := by
  obtain ⟨-, -, -, -, he1, he2, ht, hts, hd⟩ := hrel
  obtain ⟨g1, g2⟩ := groupByExt_sums (collect minSize events).files
  obtain ⟨c1, c2, -⟩ := collect_inv minSize events
  refine ⟨?_, ?_, ?_⟩
  · rw [he1, g1, ht]
  · rw [he2, g2, hts, c1]
  · rw [hd, hts, c2]

/-- C4 witness. -/
theorem c4_conservation_witness :
    analyzeFilesRel
      (collect 0 [WalkEvent.fileEntry "a.txt" 10 5 0,
        WalkEvent.fileEntry "b.bin" 20 7 0]).files
      (collect 0 [WalkEvent.fileEntry "a.txt" 10 5 0,
        WalkEvent.fileEntry "b.bin" 20 7 0]).totalSize
      (collect 0 [WalkEvent.fileEntry "a.txt" 10 5 0,
        WalkEvent.fileEntry "b.bin" 20 7 0]).dirSizes 30
      ⟨2, 30,
        [⟨"b.bin", 20, ".bin", 7⟩, ⟨"a.txt", 10, ".txt", 5⟩],
        [(".txt", 1), (".bin", 1)], [(".txt", 10), (".bin", 20)],
        [⟨"a.txt", 10, ".txt", 5⟩, ⟨"b.bin", 20, ".bin", 7⟩],
        [(".", 30)]⟩ ∧
    sumVals [(".txt", 1), (".bin", 1)] = 2 := by
  have hrel : analyzeFilesRel
      (collect 0 [WalkEvent.fileEntry "a.txt" 10 5 0,
        WalkEvent.fileEntry "b.bin" 20 7 0]).files
      (collect 0 [WalkEvent.fileEntry "a.txt" 10 5 0,
        WalkEvent.fileEntry "b.bin" 20 7 0]).totalSize
      (collect 0 [WalkEvent.fileEntry "a.txt" 10 5 0,
        WalkEvent.fileEntry "b.bin" 20 7 0]).dirSizes 30
      ⟨2, 30,
        [⟨"b.bin", 20, ".bin", 7⟩, ⟨"a.txt", 10, ".txt", 5⟩],
        [(".txt", 1), (".bin", 1)], [(".txt", 10), (".bin", 20)],
        [⟨"a.txt", 10, ".txt", 5⟩, ⟨"b.bin", 20, ".bin", 7⟩],
        [(".", 30)]⟩ := by
    unfold analyzeFilesRel
    refine ⟨by decide, by decide, by decide, by decide, by decide, by decide,
      by decide, by decide, by decide⟩
  have h := c4_conservation 0 30
    [WalkEvent.fileEntry "a.txt" 10 5 0, WalkEvent.fileEntry "b.bin" 20 7 0] _ hrel
  exact ⟨hrel, h.1⟩

/-- C5 (counterexample): the rankings are produced by sort.Slice,
which guarantees only a comparator-sorted permutation and is
documented as NOT stable.  For two equal-size records the reversed
order satisfies everything analyzeFiles guarantees, yet differs from
the stable descending sort of the traversal order, so the claimed
stability does not hold. -/
theorem c5_counterexample :
    analyzeFilesRel
      [⟨"p1", 5, ".a", 1⟩, ⟨"p2", 5, ".b", 2⟩] 10 [] 30
      ⟨2, 10,
        [⟨"p2", 5, ".b", 2⟩, ⟨"p1", 5, ".a", 1⟩],
        [(".a", 1), (".b", 1)], [(".a", 5), (".b", 5)],
        [⟨"p1", 5, ".a", 1⟩, ⟨"p2", 5, ".b", 2⟩],
        []⟩ ∧
    ([⟨"p2", 5, ".b", 2⟩, ⟨"p1", 5, ".a", 1⟩] : List FileInfo) ≠
      stableSortBy sizeGe [⟨"p1", 5, ".a", 1⟩, ⟨"p2", 5, ".b", 2⟩] := by
  constructor
  · unfold analyzeFilesRel
    refine ⟨by decide, by decide, by decide, by decide, by decide, by decide,
      by decide, by decide, by decide⟩
  · decide

/-- C5 (amended): each ranking is a permutation of the collected
records sorted by its key — non-increasing by size, non-decreasing by
lastUsed (so, when all timestamps are non-negative, any zero
timestamp precedes every positive one) — but the relative order of
records with equal keys is not guaranteed, because sort.Slice is
documented as unstable. -/
theorem c5_sorted_rankings (files : List FileInfo) (totalSize daysUnused : Int)
    (dirSizes : List (String × Int)) (r : AnalysisResults)
    (hrel : analyzeFilesRel files totalSize dirSizes daysUnused r) :
    List.Perm files r.largestFiles ∧
    r.largestFiles.Pairwise (fun a b => b.size ≤ a.size) ∧
    List.Perm files r.oldestFiles ∧
    r.oldestFiles.Pairwise (fun a b => a.lastUsed ≤ b.lastUsed) ∧
    ((∀ f ∈ files, 0 ≤ f.lastUsed) →
      r.oldestFiles.Pairwise (fun a b => b.lastUsed = 0 → a.lastUsed = 0)) := by
  obtain ⟨hp1, hs1, hp2, hs2, -, -, -, -, -⟩ := hrel
  have w1 := pairOk_size hs1
  have w2 := pairOk_time hs2
  refine ⟨hp1, w1, hp2, w2, ?_⟩
  intro hnn
  refine List.Pairwise.imp_of_mem ?_ w2
  intro a b ha hb hab h0
  have hna : 0 ≤ a.lastUsed := hnn a (hp2.mem_iff.mpr ha)
  omega

/-- C5 witness. -/
theorem c5_sorted_rankings_witness :
    analyzeFilesRel [⟨"q", 3, ".q", 4⟩] 3 [(".", 3)] 30
      ⟨1, 3, [⟨"q", 3, ".q", 4⟩], [(".q", 1)], [(".q", 3)],
        [⟨"q", 3, ".q", 4⟩], [(".", 3)]⟩ ∧
    List.Perm [⟨"q", 3, ".q", 4⟩]
      (AnalysisResults.largestFiles
        ⟨1, 3, [⟨"q", 3, ".q", 4⟩], [(".q", 1)], [(".q", 3)],
          [⟨"q", 3, ".q", 4⟩], [(".", 3)]⟩) := by
  have hrel : analyzeFilesRel [⟨"q", 3, ".q", 4⟩] 3 [(".", 3)] 30
      ⟨1, 3, [⟨"q", 3, ".q", 4⟩], [(".q", 1)], [(".q", 3)],
        [⟨"q", 3, ".q", 4⟩], [(".", 3)]⟩ := by
    unfold analyzeFilesRel
    refine ⟨by decide, by decide, by decide, by decide, by decide, by decide,
      by decide, by decide, by decide⟩
  exact ⟨hrel, (c5_sorted_rankings _ _ _ _ _ hrel).1⟩

/-- C6: for topN at least 1, the unused-files section emits exactly
the first min(topN, k) records of the recency-ranked sequence whose
lastUsed is strictly before the cutoff now minus daysUnused days (k
the number of qualifying records, in sequence order), and the
none-found line is printed exactly when zero records qualify. -/
theorem c6_unused_section (oldest : List FileInfo) (topN daysUnused now : Int)
    (htop : 1 ≤ topN) (hdays : 0 ≤ daysUnused) :
    (unusedSection oldest topN (cutoffOf now daysUnused)).1 =
      (oldest.filter (staleB (cutoffOf now daysUnused))).take topN.toNat ∧
    (unusedSection oldest topN (cutoffOf now daysUnused)).1.length =
      min topN.toNat (oldest.filter (staleB (cutoffOf now daysUnused))).length ∧
    ((unusedSection oldest topN (cutoffOf now daysUnused)).2 = true ↔
      oldest.filter (staleB (cutoffOf now daysUnused)) = []) := by
  have h0 : (0 : Int) < topN := htop
  have h := unusedLoop_take (cutoffOf now daysUnused) topN oldest 0 h0
  have htn : (topN - 0).toNat = topN.toNat := by omega
  rw [htn] at h
  have hsec : (unusedSection oldest topN (cutoffOf now daysUnused)).1 =
      (oldest.filter (staleB (cutoffOf now daysUnused))).take topN.toNat := h
  refine ⟨hsec, ?_, ?_⟩
  · rw [hsec, List.length_take]
  · have hsec2 : (unusedSection oldest topN (cutoffOf now daysUnused)).2 =
        (unusedSection oldest topN (cutoffOf now daysUnused)).1.isEmpty := rfl
    rw [hsec2, hsec, List.isEmpty_iff]
    constructor
    · intro hnil
      cases hfil : oldest.filter (staleB (cutoffOf now daysUnused)) with
      | nil => rfl
      | cons x xs =>
        rw [hfil] at hnil
        have : topN.toNat = 0 := by
          by_contra hne
          obtain ⟨k, hk⟩ := Nat.exists_eq_succ_of_ne_zero hne
          rw [hk] at hnil
          cases hnil
        omega
    · intro hnil
      rw [hnil, List.take_nil]

/-- C6 witness. -/
theorem c6_unused_section_witness :
    (1 : Int) ≤ 2 ∧ (0 : Int) ≤ 30 ∧
    (unusedSection [⟨"old", 1, ".o", cutoffOf 0 30 - 5⟩, ⟨"new", 1, ".n", 0⟩] 2
        (cutoffOf 0 30)).1 =
      ([⟨"old", 1, ".o", cutoffOf 0 30 - 5⟩, ⟨"new", 1, ".n", 0⟩].filter
        (staleB (cutoffOf 0 30))).take (2 : Int).toNat :=
  ⟨by decide, by decide,
    (c6_unused_section [⟨"old", 1, ".o", cutoffOf 0 30 - 5⟩, ⟨"new", 1, ".n", 0⟩]
      2 30 0 (by decide) (by decide)).1⟩

/-- C7: the byte-size humanizer renders sizes below 1024 as an
integer count with the unit B; for int64-range sizes of at least
1024 it picks the unit exponent e with 1024 to the e plus 1 at most
the size and the size below 1024 to the e plus 2 — i.e. the largest
base-1024 unit whose scaled value is at least 1, with the exponent
always a valid index into KMGTPE — and renders exactly one decimal
digit; the spec examples 999, 0, 1000000 and 1073741824 evaluate as
stated. -/
theorem c7_format_size :
    (∀ size : Int, size < 1024 → formatSize size = toString size ++ " B") ∧
    (∀ size : Int, 1024 ≤ size → size < 2 ^ 63 →
      1024 ^ ((sizeDivExp (size.toNat / 1024) 1024 0).2 + 1) ≤ size.toNat ∧
      size.toNat < 1024 ^ ((sizeDivExp (size.toNat / 1024) 1024 0).2 + 2) ∧
      (sizeDivExp (size.toNat / 1024) 1024 0).2 ≤ 5 ∧
      roundHalfEven (size.toNat * 10) (sizeDivExp (size.toNat / 1024) 1024 0).1 % 10 < 10 ∧
      formatSize size =
        toString (roundHalfEven (size.toNat * 10)
          (sizeDivExp (size.toNat / 1024) 1024 0).1 / 10) ++ "." ++
        toString (roundHalfEven (size.toNat * 10)
          (sizeDivExp (size.toNat / 1024) 1024 0).1 % 10) ++ " " ++
        unitStr (sizeDivExp (size.toNat / 1024) 1024 0).2 ++ "iB") ∧
    formatSize 999 = "999 B" ∧
    formatSize 0 = "0 B" ∧
    formatSize 1000000 = "976.6 KiB" ∧
    formatSize 1073741824 = "1.0 GiB" := by
  refine ⟨?_, ?_, by decide, by decide, by decide, by decide⟩
  · intro size h
    unfold formatSize
    rw [if_pos h]
  · intro size h1 h2
    have hge : 1024 ≤ size.toNat := by omega
    have hspec := sizeDivExp_spec size.toNat (size.toNat / 1024) 1024 0
      (by norm_num) rfl
    obtain ⟨g1, g2, g3, -⟩ := hspec
    have hn1 : 1 ≤ size.toNat / 1024 := (Nat.one_le_div_iff (by omega)).mpr hge
    have hlow' : 1 ≤ size.toNat / (sizeDivExp (size.toNat / 1024) 1024 0).1 := g3 hn1
    have hpos : 0 < (sizeDivExp (size.toNat / 1024) 1024 0).1 := by
      rw [g1]
      exact pow_pos (by omega) _
    have hlow : (sizeDivExp (size.toNat / 1024) 1024 0).1 ≤ size.toNat :=
      (Nat.one_le_div_iff hpos).mp hlow'
    have hhigh : size.toNat < 1024 * (sizeDivExp (size.toNat / 1024) 1024 0).1 :=
      (Nat.div_lt_iff_lt_mul hpos).mp g2
    refine ⟨?_, ?_, ?_, Nat.mod_lt _ (by omega), ?_⟩
    · rw [← g1]
      exact hlow
    · have : 1024 ^ ((sizeDivExp (size.toNat / 1024) 1024 0).2 + 2) =
          1024 * 1024 ^ ((sizeDivExp (size.toNat / 1024) 1024 0).2 + 1) := by
        ring
      rw [this, ← g1]
      exact hhigh
    · by_contra hgt
      have h6 : 7 ≤ (sizeDivExp (size.toNat / 1024) 1024 0).2 + 1 := by omega
      have hp7 : (1024 : Nat) ^ 7 ≤
          1024 ^ ((sizeDivExp (size.toNat / 1024) 1024 0).2 + 1) :=
        Nat.pow_le_pow_right (by omega) h6
      have hbig : (1024 : Nat) ^ 7 ≤ size.toNat := le_trans hp7 (g1 ▸ hlow)
      have hlim : size.toNat < 2 ^ 63 := by omega
      have : (1024 : Nat) ^ 7 = 1180591620717411303424 := by norm_num
      omega
    · unfold formatSize
      rw [if_neg (not_lt.mpr h1)]

/-- C7 witness. -/
theorem c7_format_size_witness :
    (999 : Int) < 1024 ∧ formatSize 999 = toString (999 : Int) ++ " B" :=
  ⟨by decide, c7_format_size.1 999 (by decide)⟩

/-- C8 (counterexample): 400 days of elapsed time do not fall in the
months branch — the months branch requires the elapsed time to be
strictly below 365 days — so the humanizer prints 1 years ago, not
the 13 months ago the claim gives as its example. -/
theorem c8_counterexample :
    formatTime (1 + 400 * nsDay) 1 = "1 years ago" ∧
    formatTime (1 + 400 * nsDay) 1 ≠ "13 months ago" := by
  refine ⟨by decide, by decide⟩

/-- C8 (amended): the relative-time humanizer returns unknown for the
zero timestamp, just now below one minute, and otherwise N units ago
where the unit is chosen by the cascading bounds (one hour, 24 hours,
30 days, 365 days) and N is a nearest integer (within half a unit) to
the elapsed time divided by the unit; 30 seconds give just now and 90
minutes give 2 hours ago as the claim states, but 400 days fall past
the 365-day months cutoff and give 1 years ago, not 13 months ago. -/
theorem c8_format_time :
    (∀ now : Int, formatTime now 0 = "unknown") ∧
    (∀ now t : Int, t ≠ 0 → now - t < nsMinute → formatTime now t = "just now") ∧
    (∀ now t : Int, t ≠ 0 → nsMinute ≤ now - t → now - t < nsHour →
      formatTime now t =
        toString (roundHalfEven (now - t).toNat nsMinute.toNat) ++ " minutes ago" ∧
      2 * roundHalfEven (now - t).toNat nsMinute.toNat * nsMinute.toNat ≤
        2 * (now - t).toNat + nsMinute.toNat ∧
      2 * (now - t).toNat ≤
        2 * roundHalfEven (now - t).toNat nsMinute.toNat * nsMinute.toNat +
          nsMinute.toNat) ∧
    (∀ now t : Int, t ≠ 0 → nsHour ≤ now - t → now - t < 24 * nsHour →
      formatTime now t =
        toString (roundHalfEven (now - t).toNat nsHour.toNat) ++ " hours ago" ∧
      2 * roundHalfEven (now - t).toNat nsHour.toNat * nsHour.toNat ≤
        2 * (now - t).toNat + nsHour.toNat ∧
      2 * (now - t).toNat ≤
        2 * roundHalfEven (now - t).toNat nsHour.toNat * nsHour.toNat + nsHour.toNat) ∧
    (∀ now t : Int, t ≠ 0 → 24 * nsHour ≤ now - t → now - t < 30 * nsDay →
      formatTime now t =
        toString (roundHalfEven (now - t).toNat nsDay.toNat) ++ " days ago") ∧
    (∀ now t : Int, t ≠ 0 → 30 * nsDay ≤ now - t → now - t < 365 * nsDay →
      formatTime now t =
        toString (roundHalfEven (now - t).toNat (30 * nsDay).toNat) ++ " months ago") ∧
    (∀ now t : Int, t ≠ 0 → 365 * nsDay ≤ now - t →
      formatTime now t =
        toString (roundHalfEven (now - t).toNat (365 * nsDay).toNat) ++ " years ago") ∧
    formatTime (1 + 30 * nsSecond) 1 = "just now" ∧
    formatTime (1 + 90 * nsMinute) 1 = "2 hours ago" ∧
    formatTime (1 + 200 * nsDay) 1 = "7 months ago" ∧
    formatTime (1 + 400 * nsDay) 1 = "1 years ago" := by
  have hmin : nsMinute = 60000000000 := by decide
  have hhour : nsHour = 3600000000000 := by decide
  have hday : nsDay = 86400000000000 := by decide
  refine ⟨?_, ?_, ?_, ?_, ?_, ?_, ?_, by decide, by decide, by decide, by decide⟩
  · intro now
    unfold formatTime
    rw [if_pos rfl]
  · intro now t ht hd
    unfold formatTime
    rw [if_neg ht, if_pos hd]
  · intro now t ht hd1 hd2
    refine ⟨?_, ?_, ?_⟩
    · unfold formatTime
      rw [if_neg ht, if_neg (not_lt.mpr hd1), if_pos hd2]
    · exact (roundHalfEven_nearest (now - t).toNat nsMinute.toNat (by rw [hmin]; omega)).1
    · exact (roundHalfEven_nearest (now - t).toNat nsMinute.toNat (by rw [hmin]; omega)).2
  · intro now t ht hd1 hd2
    have hd0 : nsMinute ≤ now - t := by rw [hmin]; rw [hhour] at hd1; omega
    refine ⟨?_, ?_, ?_⟩
    · unfold formatTime
      rw [if_neg ht, if_neg (not_lt.mpr hd0), if_neg (not_lt.mpr hd1), if_pos hd2]
    · exact (roundHalfEven_nearest (now - t).toNat nsHour.toNat (by rw [hhour]; omega)).1
    · exact (roundHalfEven_nearest (now - t).toNat nsHour.toNat (by rw [hhour]; omega)).2
  · intro now t ht hd1 hd2
    have hd0 : nsMinute ≤ now - t := by rw [hmin]; rw [hhour] at hd1; omega
    have hd0' : nsHour ≤ now - t := by rw [hhour] at hd1 ⊢; omega
    unfold formatTime
    rw [if_neg ht, if_neg (not_lt.mpr hd0), if_neg (not_lt.mpr hd0'),
      if_neg (not_lt.mpr hd1), if_pos hd2]
  · intro now t ht hd1 hd2
    have hd0 : nsMinute ≤ now - t := by rw [hmin]; rw [hday] at hd1; omega
    have hd0' : nsHour ≤ now - t := by rw [hhour]; rw [hday] at hd1; omega
    have hd0'' : 24 * nsHour ≤ now - t := by rw [hhour]; rw [hday] at hd1; omega
    unfold formatTime
    rw [if_neg ht, if_neg (not_lt.mpr hd0), if_neg (not_lt.mpr hd0'),
      if_neg (not_lt.mpr hd0''), if_neg (not_lt.mpr hd1), if_pos hd2]
  · intro now t ht hd1
    have hd0 : nsMinute ≤ now - t := by rw [hmin]; rw [hday] at hd1; omega
    have hd0' : nsHour ≤ now - t := by rw [hhour]; rw [hday] at hd1; omega
    have hd0'' : 24 * nsHour ≤ now - t := by rw [hhour]; rw [hday] at hd1; omega
    have hd0''' : 30 * nsDay ≤ now - t := by rw [hday] at hd1 ⊢; omega
    have hd365 : 365 * nsDay ≤ now - t := hd1
    unfold formatTime
    rw [if_neg ht, if_neg (not_lt.mpr hd0), if_neg (not_lt.mpr hd0'),
      if_neg (not_lt.mpr hd0''), if_neg (not_lt.mpr hd0'''),
      if_neg (not_lt.mpr hd365)]

/-- C8 witness. -/
theorem c8_format_time_witness :
    (1 : Int) ≠ 0 ∧ (1 + 30 * nsSecond) - 1 < nsMinute ∧
    formatTime (1 + 30 * nsSecond) 1 = "just now" :=
  ⟨by decide, by decide, c8_format_time.2.1 (1 + 30 * nsSecond) 1 (by decide) (by decide)⟩

/-- C9 (counterexample): ties are NOT broken by key order: the
entries reach the sort in unspecified Go map-iteration order and
sort.Slice is unstable, so for two keys of equal value the output
with the keys in descending order satisfies everything the code
guarantees, yet differs from the value-descending, key-ascending
ranking the claim states. -/
theorem c9_counterexample :
    printSortedMapRel [("a", 1), ("b", 1)] 2 [("b", 1), ("a", 1)] ∧
    ([("b", 1), ("a", 1)] : List (String × Int)) ≠
      (stableSortBy valKeyBefore [("a", 1), ("b", 1)]).take (2 : Int).toNat := by
  constructor
  · exact ⟨[("b", 1), ("a", 1)], by decide, by decide, rfl⟩
  · decide

/-- C9 (amended): each grouped section emits min(topN, number of
keys) entries, sorted descending by value, whose value sequence is
exactly the topN-prefix of the descending sort of all the values;
the order among entries of equal value is unspecified. -/
theorem c9_top_values (m : List (String × Int)) (topN : Int)
    (out : List (String × Int)) (htop : 0 ≤ topN)
    (hrel : printSortedMapRel m topN out) :
    out.map Prod.snd = (stableSortBy intGe (m.map Prod.snd)).take topN.toNat ∧
    out.length = min topN.toNat m.length ∧
    out.Pairwise (fun a b => b.2 ≤ a.2) := by
  obtain ⟨sorted, hperm, hpair, hout⟩ := hrel
  have hw := pairOk_val hpair
  have hmapsorted : (sorted.map Prod.snd).Pairwise (fun a b : Int => b ≤ a) :=
    hw.map Prod.snd (fun a b h => h)
  have hsortperm : List.Perm (sorted.map Prod.snd) (stableSortBy intGe (m.map Prod.snd)) := by
    have h1 : List.Perm (m.map Prod.snd) (sorted.map Prod.snd) := hperm.map Prod.snd
    have h2 : List.Perm (stableSortBy intGe (m.map Prod.snd)) (m.map Prod.snd) :=
      stableSortBy_perm intGe (m.map Prod.snd)
    exact h1.symm.trans h2.symm
  haveI : IsAntisymm Int (fun a b : Int => b ≤ a) :=
    ⟨fun a b h1 h2 => le_antisymm h2 h1⟩
  have heq : sorted.map Prod.snd = stableSortBy intGe (m.map Prod.snd) :=
    List.eq_of_perm_of_sorted hsortperm hmapsorted (stableSortBy_sorted_intGe _)
  refine ⟨?_, ?_, ?_⟩
  · rw [hout, ← heq, ← List.map_take]
  · rw [hout, List.length_take, hperm.length_eq]
  · rw [hout]
    exact hw.sublist (List.take_sublist _ _)

/-- C9 witness. -/
theorem c9_top_values_witness :
    (0 : Int) ≤ 1 ∧
    printSortedMapRel [("x", 5), ("y", 7)] 1 [("y", 7)] ∧
    [("y", 7)].map Prod.snd =
      (stableSortBy intGe ([("x", 5), ("y", 7)].map Prod.snd)).take (1 : Int).toNat := by
  have hrel : printSortedMapRel [("x", 5), ("y", 7)] 1 [("y", 7)] :=
    ⟨[("y", 7), ("x", 5)], by decide, by decide, rfl⟩
  exact ⟨by decide, hrel, (c9_top_values [("x", 5), ("y", 7)] 1 [("y", 7)]
    (by decide) hrel).1⟩

/-- C10: with nonpositive topN the largest-files section and the
three grouped sections emit no entries, but the unused-files loop
still emits the first qualifying record if any exists — exactly one
entry — because the topN bound is only checked after an entry has
been printed. -/
theorem c10_nonpositive_topn (topN : Int) (htop : topN ≤ 0) :
    (∀ r : AnalysisResults, largestSection r topN = []) ∧
    (∀ m out, printSortedMapRel m topN out → out = []) ∧
    (∀ oldest cutoff, unusedLoop cutoff topN oldest 0 =
      (oldest.filter (staleB cutoff)).take 1) ∧
    (∀ oldest cutoff f, f ∈ oldest → staleB cutoff f = true →
      (unusedLoop cutoff topN oldest 0).length = 1) := by
  have hz : topN.toNat = 0 := by omega
  refine ⟨?_, ?_, ?_, ?_⟩
  · intro r
    unfold largestSection
    rw [hz]
    rfl
  · intro m out hrel
    obtain ⟨sorted, -, -, hout⟩ := hrel
    rw [hout, hz]
    rfl
  · intro oldest cutoff
    exact unusedLoop_nonpos cutoff topN oldest 0 htop
  · intro oldest cutoff f hf hstale
    rw [unusedLoop_nonpos cutoff topN oldest 0 htop]
    have hmem : f ∈ oldest.filter (staleB cutoff) := List.mem_filter.mpr ⟨hf, hstale⟩
    cases hfil : oldest.filter (staleB cutoff) with
    | nil => rw [hfil] at hmem; cases hmem
    | cons x xs => rfl

/-- C10 witness. -/
theorem c10_nonpositive_topn_witness :
    (0 : Int) ≤ 0 ∧
    largestSection ⟨1, 2, [⟨"p", 2, ".p", 5⟩], [(".p", 1)], [(".p", 2)],
      [⟨"p", 2, ".p", 5⟩], [(".", 2)]⟩ 0 = [] :=
  ⟨by decide, (c10_nonpositive_topn 0 (by decide)).1
    ⟨1, 2, [⟨"p", 2, ".p", 5⟩], [(".p", 1)], [(".p", 2)],
      [⟨"p", 2, ".p", 5⟩], [(".", 2)]⟩⟩

end FileScope
